import Mathlib

/-!
Verification of `fix_menu_corruption.py`: a one-shot script that reads one
file, applies an ordered sequence of text substitutions (regex passes and
literal replacements), and rewrites the file only when the content changed.

The passes are shallowly embedded over `List Char`.  Each `re.sub` call and
each `str.replace` call is modelled by the generic scanner `scanF`, which
walks the string left to right, at each position either fires the pass's
matcher (emitting the replacement and resuming after the matched text, as
Python's leftmost non-overlapping substitution does) or copies one character.
The matchers are direct transcriptions of the concrete patterns; every
quantifier in those patterns is forced to maximal munch because the adjacent
character classes are disjoint, so the transcription needs no backtracking.
Character classes follow the ASCII classes written in the patterns; the
whitespace class is the ASCII whitespace set.
-/

set_option maxRecDepth 100000

namespace FixMenu

/-- ASCII whitespace, the characters the patterns' whitespace class accepts. -/
def isSpace (c : Char) : Bool :=
  c = ' ' || c = '\t' || c = '\n' || c = '\x0b' || c = '\x0c' || c = '\r'

/-- The class `[a-zA-Z0-9]` used for tag names and attribute words. -/
def isAlnum (c : Char) : Bool :=
  c.isAlphanum

/-- Word characters, deciding the word-boundary assertion of the patterns. -/
def isWord (c : Char) : Bool :=
  isAlnum c || c = '_'

/-- Word-character test for an optional preceding character (none at start of string). -/
def isWordOpt : Option Char → Bool
  | none => false
  | some c => isWord c

/-- Word boundary between the previous character and the next one. -/
def boundary (prev : Option Char) (c : Char) : Bool :=
  isWordOpt prev != isWord c

/-- The class `[a-zA-Z0-9-]` of the equals-spacing pass's attribute names. -/
def isAttrChar (c : Char) : Bool :=
  isAlnum c || c = '-'

/-- The class `[a-zA-Z-]` of the known-property pass's trailing word. -/
def isPropChar (c : Char) : Bool :=
  c.isAlpha || c = '-'

/-- Does `pat` occur as a leading segment of `l`? -/
def leadsWith : List Char → List Char → Bool
  | [], _ => true
  | _ :: _, [] => false
  | p :: ps, c :: cs => p == c && leadsWith ps cs

/-- Does `pat` occur as a contiguous segment anywhere in `l`? -/
def occursIn (pat : List Char) : List Char → Bool
  | [] => leadsWith pat []
  | c :: cs => leadsWith pat (c :: cs) || occursIn pat cs

/-- A matcher receives the character preceding the current position (for the
word-boundary assertion) and the current suffix; on success it returns the
matched text, the replacement text, and the remaining suffix. -/
abbrev Matcher : Type :=
  Option Char → List Char → Option (List Char × List Char × List Char)

/-- Leftmost non-overlapping substitution, fuelled: at each position try the
matcher; on a match emit the replacement and resume after the matched text,
otherwise copy one character.  This is the scanning discipline of both
`re.sub` and `str.replace`. -/
def scanF (m : Matcher) : Nat → Option Char → List Char → List Char
  | 0, _, l => l
  | _ + 1, _, [] => []
  | f + 1, prev, c :: cs =>
    match m prev (c :: cs) with
    | some (mat, rep, rest) => rep ++ scanF m f mat.getLast? rest
    | none => c :: scanF m f (some c) cs

/-- Substitution starting with a given preceding character. -/
def scanFrom (m : Matcher) (prev : Option Char) (l : List Char) : List Char :=
  scanF m l.length prev l

/-- Substitution over a whole document (no character precedes the start). -/
def scan (m : Matcher) (l : List Char) : List Char :=
  scanFrom m none l

/-- Matcher of pass 1, the closing-tag fix `re.sub(r'</\s+([a-zA-Z0-9]+)>', r'</\1>', content)`. -/
def mClose : Matcher := fun _ l =>
  match l with
  | a :: b :: r =>
    if a = '<' ∧ b = '/' then
      let ws := r.takeWhile isSpace
      let r1 := r.dropWhile isSpace
      if ws = [] then none else
      let tag := r1.takeWhile isAlnum
      let r2 := r1.dropWhile isAlnum
      if tag = [] then none else
      match r2 with
      | g :: r3 =>
        if g = '>' then
          some ('<' :: '/' :: (ws ++ tag ++ ['>']), '<' :: '/' :: (tag ++ ['>']), r3)
        else none
      | [] => none
    else none
  | _ => none

/-- Matcher of pass 2, the opening-tag fix `re.sub(r'<\s+([a-zA-Z0-9]+)', r'<\1', content)`. -/
def mOpen : Matcher := fun _ l =>
  match l with
  | a :: r =>
    if a = '<' then
      let ws := r.takeWhile isSpace
      let r1 := r.dropWhile isSpace
      if ws = [] then none else
      let tag := r1.takeWhile isAlnum
      let r2 := r1.dropWhile isAlnum
      if tag = [] then none else
      some ('<' :: (ws ++ tag), '<' :: tag, r2)
    else none
  | [] => none

/-- Matcher of pass 3, the hyphenated-attribute fix
`re.sub(r'\b([a-zA-Z0-9]+)\s-\s([a-zA-Z0-9]+)=', r'\1-\2=', content)`. -/
def mAttr : Matcher := fun prev l =>
  match l with
  | c :: _ =>
    if boundary prev c = true then
      let w1 := l.takeWhile isAlnum
      let r1 := l.dropWhile isAlnum
      if w1 = [] then none else
      match r1 with
      | s1 :: hy :: s2 :: r2 =>
        if isSpace s1 = true ∧ hy = '-' ∧ isSpace s2 = true then
          let w2 := r2.takeWhile isAlnum
          let r3 := r2.dropWhile isAlnum
          if w2 = [] then none else
          match r3 with
          | e :: r4 =>
            if e = '=' then
              some (w1 ++ s1 :: hy :: s2 :: (w2 ++ ['=']), w1 ++ '-' :: (w2 ++ ['=']), r4)
            else none
          | [] => none
        else none
      | _ => none
    else none
  | [] => none

/-- Matcher of pass 4, the equals-spacing fix
`re.sub(r'\b([a-zA-Z0-9-]+)\s=\s"', r'\1="', content)`. -/
def mEq : Matcher := fun prev l =>
  match l with
  | c :: _ =>
    if boundary prev c = true then
      let g := l.takeWhile isAttrChar
      let r1 := l.dropWhile isAttrChar
      if g = [] then none else
      match r1 with
      | s1 :: e :: s2 :: q :: r2 =>
        if isSpace s1 = true ∧ e = '=' ∧ isSpace s2 = true ∧ q = '\"' then
          some (g ++ [s1, e, s2, q], g ++ ['=', '\"'], r2)
        else none
      | _ => none
    else none
  | [] => none

/-- Matcher of pass 5 for one property name `prop`, the known-property fix
`re.sub(r'\b' + prop + r'\s-\s([a-zA-Z-]+)', lambda m: f"PROP-GROUP", content)`. -/
def mProp (prop : List Char) : Matcher := fun prev l =>
  match l with
  | c :: _ =>
    if boundary prev c = true ∧ leadsWith prop l = true then
      match l.drop prop.length with
      | s1 :: hy :: s2 :: r2 =>
        if isSpace s1 = true ∧ hy = '-' ∧ isSpace s2 = true then
          let g := r2.takeWhile isPropChar
          let r3 := r2.dropWhile isPropChar
          if g = [] then none else
          some (prop ++ s1 :: hy :: s2 :: g, prop ++ '-' :: g, r3)
        else none
      | _ => none
    else none
  | [] => none

/-- Matcher of a literal replacement `content.replace(pat, rep)` (all the
patterns in the script are nonempty, which the guard records). -/
def mRep (pat rep : List Char) : Matcher := fun _ l =>
  if leadsWith pat l = true ∧ pat ≠ [] then
    some (pat, rep, l.drop pat.length)
  else none

/-- Pass 1: fix closing tags, `</ div>` becomes `</div>`. -/
def fixClosing (l : List Char) : List Char :=
  scan mClose l

/-- Pass 2: fix opening tags, `< div` becomes `<div`. -/
def fixOpening (l : List Char) : List Char :=
  scan mOpen l

/-- Pass 3: fix attributes with spaces around a hyphen, `data - order=` becomes `data-order=`. -/
def fixAttrHyphen (l : List Char) : List Char :=
  scan mAttr l

/-- Pass 4: fix attributes with spaces around the equals sign, `style = "` becomes `style="`. -/
def fixEqSpace (l : List Char) : List Char :=
  scan mEq l

/-- The fixed list `known_css_props` of the source. -/
def known_css_props : List (List Char) :=
  ["box".toList, "text".toList, "border".toList, "z".toList, "pointer".toList,
   "background".toList, "margin".toList, "padding".toList, "flex".toList,
   "grid".toList, "align".toList, "justify".toList, "overflow".toList,
   "font".toList, "line".toList]

/-- One iteration of the known-property loop: the substitution for one property name. -/
def propPass (prop : List Char) (l : List Char) : List Char :=
  scan (mProp prop) l

/-- Pass 5: the loop over `known_css_props`, each iteration one substitution. -/
def fixProps (l : List Char) : List Char :=
  known_css_props.foldl (fun acc p => propPass p acc) l

/-- The `prefixes` list of the source's selector loop. -/
def prefixes : List (List Char) :=
  ["mp-".toList, "btn-".toList, "progress-".toList, "stats-".toList,
   "settings-".toList, "battle-".toList, "map-".toList, "quest-".toList,
   "achievement-".toList]

/-- The source's loop over `prefixes`: its body is a bare `pass` statement, so
each iteration leaves the content untouched. -/
def selectorLoop (l : List Char) : List Char :=
  prefixes.foldl (fun acc _ => acc) l

/-- Apply a list of literal replacement pairs in order, each over the whole document. -/
def applyPairs (ps : List (List Char × List Char)) (l : List Char) : List Char :=
  ps.foldl (fun acc pr => scan (mRep pr.1 pr.2) acc) l

/-- The exact-string selector/identifier table, in source order (lines 62-114). -/
def selector_pairs : List (List Char × List Char) :=
  [(".mp-mode - btn".toList, ".mp-mode-btn".toList),
   ("#mp-join - room - modal".toList, "#mp-join-room-modal".toList),
   ("#mp-room - details".toList, "#mp-room-details".toList),
   ("room - details".toList, "room-details".toList),
   ("mp - room".toList, "mp-room".toList),
   ("mp - btn".toList, "mp-btn".toList),
   ("mp - create".toList, "mp-create".toList),
   ("mp - connection".toList, "mp-connection".toList),
   ("mp - status".toList, "mp-status".toList),
   ("mp - rooms".toList, "mp-rooms".toList),
   ("battle - btn".toList, "battle-btn".toList),
   ("progress - tab".toList, "progress-tab".toList),
   ("progress - content".toList, "progress-content".toList),
   ("progress - level".toList, "progress-level".toList),
   ("progress - stat".toList, "progress-stat".toList),
   ("progress - bonus".toList, "progress-bonus".toList),
   ("progress - next".toList, "progress-next".toList),
   ("progress - xp".toList, "progress-xp".toList),
   ("quest - card".toList, "quest-card".toList),
   ("quest - header".toList, "quest-header".toList),
   ("quest - name".toList, "quest-name".toList),
   ("quest - status".toList, "quest-status".toList),
   ("quest - description".toList, "quest-description".toList),
   ("quest - progress".toList, "quest-progress".toList),
   ("quest - rewards".toList, "quest-rewards".toList),
   ("quest - reward".toList, "quest-reward".toList),
   ("achievement - card".toList, "achievement-card".toList),
   ("achievement - header".toList, "achievement-header".toList),
   ("achievement - icon".toList, "achievement-icon".toList),
   ("achievement - name".toList, "achievement-name".toList),
   ("achievement - tier".toList, "achievement-tier".toList),
   ("achievement - description".toList, "achievement-description".toList),
   ("achievement - reward".toList, "achievement-reward".toList),
   ("achievement - status".toList, "achievement-status".toList),
   ("achievement - category".toList, "achievement-category".toList),
   ("map - card".toList, "map-card".toList),
   ("map - grid".toList, "map-grid".toList),
   ("map - selection".toList, "map-selection".toList),
   ("panel - content".toList, "panel-content".toList),
   ("panel - title".toList, "panel-title".toList),
   ("panel - close".toList, "panel-close".toList),
   ("panel - btn".toList, "panel-btn".toList),
   ("panel - buttons".toList, "panel-buttons".toList),
   ("panel - header".toList, "panel-header".toList),
   ("panel - overlay".toList, "panel-overlay".toList),
   ("play - window".toList, "play-window".toList),
   ("window - actions".toList, "window-actions".toList),
   ("window - btn".toList, "window-btn".toList),
   ("section - title".toList, "section-title".toList),
   ("mode - buttons".toList, "mode-buttons".toList),
   ("game - type".toList, "game-type".toList),
   ("btn - label".toList, "btn-label".toList),
   ("btn - icon".toList, "btn-icon".toList)]

/-- Pass 6: the exact-string selector/identifier replacements. -/
def fixSelectors (l : List Char) : List Char :=
  applyPairs selector_pairs l

/-- The prose-phrase table, in source order (lines 119-121). -/
def prose_pairs : List (List Char × List Char) :=
  [("Free -for-All".toList, "Free-for-All".toList),
   ("Co - op".toList, "Co-op".toList),
   ("Free - for - All".toList, "Free-for-All".toList)]

/-- Pass 7: the prose-phrase replacements. -/
def fixProse (l : List Char) : List Char :=
  applyPairs prose_pairs l

/-- The full transformation pipeline, the passes in source order. -/
def pipeline (l : List Char) : List Char :=
  fixProse (fixSelectors (selectorLoop (fixProps (fixEqSpace (fixAttrHyphen (fixOpening (fixClosing l)))))))

/-- The pipeline with the dead selector-loop removed. -/
def pipelineNoLoop (l : List Char) : List Char :=
  fixProse (fixSelectors (fixProps (fixEqSpace (fixAttrHyphen (fixOpening (fixClosing l))))))

/-- The status line printed when the content changed. -/
def fixedMessage : List Char :=
  "Fixed corruption in menu.ts".toList

/-- The status line printed when the content did not change. -/
def noChangesMessage : List Char :=
  "No changes needed".toList

/-- Outcome of one run on given initial content: the content written back (if
any) and the status line printed. -/
structure RunOutcome where
  written : Option (List Char)
  message : List Char
deriving DecidableEq, Repr

/-- The script's behaviour after the initial read succeeded: transform the
content, then write back and report only when the result differs from the
original (`if content != original_content`). -/
def runScript (l : List Char) : RunOutcome :=
  let content := pipeline l
  if content ≠ l then ⟨some content, fixedMessage⟩ else ⟨none, noChangesMessage⟩

/-- One whole run against a disk state: `none` models an unreadable or missing
file, in which case the run aborts before any transformation or write; on a
successful read the write (if any) happens only after the whole in-memory
transformation.  Returns the disk state after the run and the status line (if
the run reached it). -/
def runOnDisk (disk : Option (List Char)) : Option (List Char) × Option (List Char) :=
  match disk with
  | none => (none, none)
  | some x => (some ((runScript x).written.getD x), some (runScript x).message)

/-- A matcher is sound when every reported match splits the input into the
nonempty matched text followed by the rest. -/
def Good (m : Matcher) : Prop :=
  ∀ prev l mat rep rest, m prev l = some (mat, rep, rest) → l = mat ++ rest ∧ mat ≠ []

/-- A matcher that reads the preceding character only through its
word-character status (the word-boundary assertion). -/
def WordDep (m : Matcher) : Prop :=
  ∀ p q l, isWordOpt p = isWordOpt q → m p l = m q l

theorem scanF_nil (m : Matcher) (f : Nat) (prev : Option Char) : scanF m f prev [] = [] := by
  cases f <;> rfl

theorem scanF_fuel (m : Matcher) (hm : Good m) :
    ∀ (f g : Nat) (prev : Option Char) (l : List Char),
      l.length ≤ f → l.length ≤ g → scanF m f prev l = scanF m g prev l := by
  intro f
  induction f with
  | zero =>
    intro g prev l hf _
    have hl : l = [] := List.eq_nil_of_length_eq_zero (Nat.le_zero.mp hf)
    subst hl
    rw [scanF_nil, scanF_nil]
  | succ f ih =>
    intro g prev l hf hg
    cases l with
    | nil => rw [scanF_nil, scanF_nil]
    | cons c cs =>
      cases g with
      | zero => simp at hg
      | succ g =>
        cases h : m prev (c :: cs) with
        | none =>
          simp only [scanF, h]
          rw [ih g (some c) cs (Nat.le_of_succ_le_succ hf) (Nat.le_of_succ_le_succ hg)]
        | some t =>
          obtain ⟨mat, rep, rest⟩ := t
          obtain ⟨hsplit, hne⟩ := hm prev (c :: cs) mat rep rest h
          have hlen : rest.length ≤ cs.length := by
            have hlen2 : (c :: cs).length = mat.length + rest.length := by
              rw [hsplit, List.length_append]
            cases mat with
            | nil => exact absurd rfl hne
            | cons a as => simp [List.length_cons] at hlen2; omega
          simp only [scanF, h]
          rw [ih g mat.getLast? rest (Nat.le_trans hlen (Nat.le_of_succ_le_succ hf))
            (Nat.le_trans hlen (Nat.le_of_succ_le_succ hg))]

theorem scanFrom_nil (m : Matcher) (prev : Option Char) : scanFrom m prev [] = [] := rfl

theorem scanFrom_cons_none {m : Matcher} {prev : Option Char} {c : Char} {cs : List Char}
    (h : m prev (c :: cs) = none) :
    scanFrom m prev (c :: cs) = c :: scanFrom m (some c) cs := by
  show scanF m (cs.length + 1) prev (c :: cs) = _
  simp only [scanF, h]
  rfl

theorem scanFrom_match {m : Matcher} (hm : Good m) {prev : Option Char} {l mat rep rest : List Char}
    (h : m prev l = some (mat, rep, rest)) :
    scanFrom m prev l = rep ++ scanFrom m mat.getLast? rest := by
  obtain ⟨hsplit, hne⟩ := hm prev l mat rep rest h
  cases l with
  | nil =>
    cases mat with
    | nil => exact absurd rfl hne
    | cons a as => simp at hsplit
  | cons c cs =>
    have hlen : rest.length ≤ cs.length := by
      have hlen2 : (c :: cs).length = mat.length + rest.length := by
        rw [hsplit, List.length_append]
      cases mat with
      | nil => exact absurd rfl hne
      | cons a as => simp [List.length_cons] at hlen2; omega
    show scanF m (cs.length + 1) prev (c :: cs) = _
    simp only [scanF, h]
    rw [scanF_fuel m hm cs.length rest.length mat.getLast? rest hlen (Nat.le_refl _)]
    rfl

theorem scanF_prevCongr {m : Matcher} (hw : WordDep m) :
    ∀ (f : Nat) (p q : Option Char) (l : List Char), isWordOpt p = isWordOpt q →
      scanF m f p l = scanF m f q l := by
  intro f
  induction f with
  | zero => intro p q l _; rfl
  | succ f ih =>
    intro p q l h
    cases l with
    | nil => rfl
    | cons c cs =>
      simp only [scanF]
      rw [hw p q (c :: cs) h]

theorem scanFrom_prevCongr {m : Matcher} (hw : WordDep m) {p q : Option Char}
    (h : isWordOpt p = isWordOpt q) (l : List Char) :
    scanFrom m p l = scanFrom m q l :=
  scanF_prevCongr hw l.length p q l h

theorem takeWhile_split (p : Char → Bool) :
    ∀ (xs rest : List Char), (∀ c ∈ xs, p c = true) →
      (∀ d ds, rest = d :: ds → p d = false) →
      (xs ++ rest).takeWhile p = xs ∧ (xs ++ rest).dropWhile p = rest := by
  intro xs
  induction xs with
  | nil =>
    intro rest _ hrest
    cases rest with
    | nil => exact ⟨rfl, rfl⟩
    | cons d ds => simp [List.takeWhile_cons, List.dropWhile_cons, hrest d ds rfl]
  | cons x xs ih =>
    intro rest hxs hrest
    have hx : p x = true := hxs x (List.mem_cons_self x xs)
    have hih := ih rest (fun c hc => hxs c (List.mem_cons_of_mem x hc)) hrest
    simp [List.takeWhile_cons, List.dropWhile_cons, hx, hih.1, hih.2]

theorem takeWhile_all (p : Char → Bool) (l : List Char) (h : ∀ c ∈ l, p c = true) :
    l.takeWhile p = l ∧ l.dropWhile p = [] := by
  have hs := takeWhile_split p l [] h (fun d ds hd => by cases hd)
  simpa using hs

theorem leadsWith_append (p v : List Char) : leadsWith p (p ++ v) = true := by
  induction p with
  | nil => rfl
  | cons c cs ih => simp [leadsWith, ih]

theorem eq_append_drop_of_leadsWith :
    ∀ (p l : List Char), leadsWith p l = true → l = p ++ l.drop p.length := by
  intro p
  induction p with
  | nil => intro l _; rfl
  | cons c cs ih =>
    intro l h
    cases l with
    | nil => simp [leadsWith] at h
    | cons a as =>
      simp only [leadsWith, Bool.and_eq_true, beq_iff_eq] at h
      obtain ⟨rfl, h2⟩ := h
      simpa using ih as h2

theorem getLast?_append_singleton (l : List Char) (a : Char) : (l ++ [a]).getLast? = some a :=
  List.getLast?_concat l

theorem space_cases {c : Char} (h : isSpace c = true) :
    c = ' ' ∨ c = '\t' ∨ c = '\n' ∨ c = '\x0b' ∨ c = '\x0c' ∨ c = '\r' := by
  have h2 := h
  simp only [isSpace, Bool.or_eq_true, decide_eq_true_eq] at h2
  tauto

theorem not_space_of_alnum {c : Char} (h : isAlnum c = true) : isSpace c = false := by
  cases hs : isSpace c
  · rfl
  · rcases space_cases hs with rfl | rfl | rfl | rfl | rfl | rfl <;> exact absurd h (by decide)

theorem not_alnum_of_space {c : Char} (h : isSpace c = true) : isAlnum c = false := by
  cases ha : isAlnum c
  · rfl
  · rw [not_space_of_alnum ha] at h; cases h

theorem not_attr_of_space {c : Char} (h : isSpace c = true) : isAttrChar c = false := by
  rcases space_cases h with rfl | rfl | rfl | rfl | rfl | rfl <;> decide

theorem word_of_alnum {c : Char} (h : isAlnum c = true) : isWord c = true := by
  simp [isWord, h]

theorem mClose_good : Good mClose := by
  intro prev l mat rep rest h
  cases l with
  | nil => exact Option.noConfusion h
  | cons a l1 =>
    cases l1 with
    | nil => exact Option.noConfusion h
    | cons b r =>
      simp only [mClose] at h
      split at h
      case isFalse => exact Option.noConfusion h
      case isTrue hab =>
        obtain ⟨rfl, rfl⟩ := hab
        split at h
        case isTrue => exact Option.noConfusion h
        case isFalse hws =>
          split at h
          case isTrue => exact Option.noConfusion h
          case isFalse htag =>
            split at h
            case h_2 => exact Option.noConfusion h
            case h_1 g r3 heq =>
              split at h
              case isFalse => exact Option.noConfusion h
              case isTrue hg =>
                subst hg
                simp only [Option.some.injEq, Prod.mk.injEq] at h
                obtain ⟨rfl, rfl, rfl⟩ := h
                refine ⟨?_, by simp⟩
                have hr : List.takeWhile isSpace r ++ List.dropWhile isSpace r = r :=
                  List.takeWhile_append_dropWhile _ _
                have hr1 : List.takeWhile isAlnum (List.dropWhile isSpace r) ++
                    List.dropWhile isAlnum (List.dropWhile isSpace r) =
                    List.dropWhile isSpace r :=
                  List.takeWhile_append_dropWhile _ _
                conv_lhs => rw [← hr, ← hr1, heq]
                simp

theorem mOpen_good : Good mOpen := by
  intro prev l mat rep rest h
  cases l with
  | nil => exact Option.noConfusion h
  | cons a r =>
    simp only [mOpen] at h
    split at h
    case isFalse => exact Option.noConfusion h
    case isTrue ha =>
      subst ha
      split at h
      case isTrue => exact Option.noConfusion h
      case isFalse hws =>
        split at h
        case isTrue => exact Option.noConfusion h
        case isFalse htag =>
          simp only [Option.some.injEq, Prod.mk.injEq] at h
          obtain ⟨rfl, rfl, rfl⟩ := h
          refine ⟨?_, by simp⟩
          have hr : List.takeWhile isSpace r ++ List.dropWhile isSpace r = r :=
            List.takeWhile_append_dropWhile _ _
          have hr1 : List.takeWhile isAlnum (List.dropWhile isSpace r) ++
              List.dropWhile isAlnum (List.dropWhile isSpace r) =
              List.dropWhile isSpace r :=
            List.takeWhile_append_dropWhile _ _
          conv_lhs => rw [← hr, ← hr1]
          simp

theorem mAttr_good : Good mAttr := by
  intro prev l mat rep rest h
  cases l with
  | nil => exact Option.noConfusion h
  | cons c cs =>
    simp only [mAttr] at h
    split at h
    case isFalse => exact Option.noConfusion h
    case isTrue hb =>
      split at h
      case isTrue => exact Option.noConfusion h
      case isFalse hw1 =>
        split at h
        case h_2 => exact Option.noConfusion h
        case h_1 s1 hy s2 r2 heq1 =>
          split at h
          case isFalse => exact Option.noConfusion h
          case isTrue hcond =>
            split at h
            case isTrue => exact Option.noConfusion h
            case isFalse hw2 =>
              split at h
              case h_2 => exact Option.noConfusion h
              case h_1 e r4 heq2 =>
                split at h
                case isFalse => exact Option.noConfusion h
                case isTrue he =>
                  subst he
                  simp only [Option.some.injEq, Prod.mk.injEq] at h
                  obtain ⟨rfl, rfl, rfl⟩ := h
                  refine ⟨?_, by simp⟩
                  have hr : List.takeWhile isAlnum (c :: cs) ++
                      List.dropWhile isAlnum (c :: cs) = c :: cs :=
                    List.takeWhile_append_dropWhile _ _
                  have hr1 : List.takeWhile isAlnum r2 ++ List.dropWhile isAlnum r2 = r2 :=
                    List.takeWhile_append_dropWhile _ _
                  conv_lhs => rw [← hr, heq1, ← hr1, heq2]
                  simp

theorem mEq_good : Good mEq := by
  intro prev l mat rep rest h
  cases l with
  | nil => exact Option.noConfusion h
  | cons c cs =>
    simp only [mEq] at h
    split at h
    case isFalse => exact Option.noConfusion h
    case isTrue hb =>
      split at h
      case isTrue => exact Option.noConfusion h
      case isFalse hg =>
        split at h
        case h_2 => exact Option.noConfusion h
        case h_1 s1 e s2 q r2 heq1 =>
          split at h
          case isFalse => exact Option.noConfusion h
          case isTrue hcond =>
            simp only [Option.some.injEq, Prod.mk.injEq] at h
            obtain ⟨rfl, rfl, rfl⟩ := h
            refine ⟨?_, by simp⟩
            have hr : List.takeWhile isAttrChar (c :: cs) ++
                List.dropWhile isAttrChar (c :: cs) = c :: cs :=
              List.takeWhile_append_dropWhile _ _
            conv_lhs => rw [← hr, heq1]
            simp

theorem mProp_good (prop : List Char) : Good (mProp prop) := by
  intro prev l mat rep rest h
  cases l with
  | nil => exact Option.noConfusion h
  | cons c cs =>
    simp only [mProp] at h
    split at h
    case isFalse => exact Option.noConfusion h
    case isTrue hb =>
      split at h
      case h_2 => exact Option.noConfusion h
      case h_1 s1 hy s2 r2 heq1 =>
        split at h
        case isFalse => exact Option.noConfusion h
        case isTrue hcond =>
          split at h
          case isTrue => exact Option.noConfusion h
          case isFalse hg =>
            simp only [Option.some.injEq, Prod.mk.injEq] at h
            obtain ⟨rfl, rfl, rfl⟩ := h
            refine ⟨?_, by simp⟩
            have hlead := eq_append_drop_of_leadsWith prop (c :: cs) hb.2
            have hr1 : List.takeWhile isPropChar r2 ++ List.dropWhile isPropChar r2 = r2 :=
              List.takeWhile_append_dropWhile _ _
            conv_lhs => rw [hlead, heq1, ← hr1]
            simp

theorem mRep_good (pat rep : List Char) : Good (mRep pat rep) := by
  intro prev l mat rep1 rest h
  simp only [mRep] at h
  split at h
  case isFalse => exact Option.noConfusion h
  case isTrue hc =>
    simp only [Option.some.injEq, Prod.mk.injEq] at h
    obtain ⟨rfl, rfl, rfl⟩ := h
    exact ⟨eq_append_drop_of_leadsWith pat l hc.1, hc.2⟩

theorem mClose_wordDep : WordDep mClose := fun _ _ _ _ => rfl

theorem mAttr_wordDep : WordDep mAttr := by
  intro p q l h
  cases l with
  | nil => rfl
  | cons c cs => simp only [mAttr, boundary, h]

theorem mEq_wordDep : WordDep mEq := by
  intro p q l h
  cases l with
  | nil => rfl
  | cons c cs => simp only [mEq, boundary, h]

theorem mProp_wordDep (prop : List Char) : WordDep (mProp prop) := by
  intro p q l h
  cases l with
  | nil => rfl
  | cons c cs => simp only [mProp, boundary, h]

theorem mClose_eval {prev : Option Char} (ws tag v : List Char)
    (hws : ws ≠ []) (hwsp : ∀ c ∈ ws, isSpace c = true)
    (htag : tag ≠ []) (htagp : ∀ c ∈ tag, isAlnum c = true) :
    mClose prev ('<' :: '/' :: (ws ++ tag ++ '>' :: v)) =
      some ('<' :: '/' :: (ws ++ tag ++ ['>']), '<' :: '/' :: (tag ++ ['>']), v) := by
  have hhead : ∀ d ds, tag ++ '>' :: v = d :: ds → isSpace d = false := by
    intro d ds hd
    cases tag with
    | nil => exact absurd rfl htag
    | cons t ts =>
      rw [List.cons_append] at hd
      injection hd with h1 _
      subst h1
      exact not_space_of_alnum (htagp t (List.mem_cons_self t ts))
  have hs1 := takeWhile_split isSpace ws (tag ++ '>' :: v) hwsp hhead
  have hhead2 : ∀ d ds, '>' :: v = d :: ds → isAlnum d = false := by
    intro d ds hd
    injection hd with h1 _
    rw [← h1]
    decide
  have hs2 := takeWhile_split isAlnum tag ('>' :: v) htagp hhead2
  simp [mClose, hs1.1, hs1.2, hs2.1, hs2.2, hws, htag]

theorem fixClosing_rewrites (ws tag v : List Char)
    (hws : ws ≠ []) (hwsp : ∀ c ∈ ws, isSpace c = true)
    (htag : tag ≠ []) (htagp : ∀ c ∈ tag, isAlnum c = true) :
    fixClosing ('<' :: '/' :: (ws ++ tag ++ '>' :: v)) =
      '<' :: '/' :: (tag ++ '>' :: fixClosing v) := by
  have hm := @mClose_eval none ws tag v hws hwsp htag htagp
  have hstep := scanFrom_match mClose_good hm
  have hassoc : '<' :: '/' :: (ws ++ tag ++ ['>']) = ('<' :: '/' :: (ws ++ tag)) ++ ['>'] := by
    simp
  rw [hassoc, getLast?_append_singleton] at hstep
  rw [@scanFrom_prevCongr mClose mClose_wordDep (some '>') none (by decide) v] at hstep
  simp only [fixClosing, scan]
  rw [hstep]
  simp

theorem mAttr_eval {prev : Option Char} (w1 w2 v : List Char) (s1 s2 : Char)
    (hprev : isWordOpt prev = false)
    (hw1 : w1 ≠ []) (hw1p : ∀ c ∈ w1, isAlnum c = true)
    (hs1 : isSpace s1 = true) (hs2 : isSpace s2 = true)
    (hw2 : w2 ≠ []) (hw2p : ∀ c ∈ w2, isAlnum c = true) :
    mAttr prev (w1 ++ s1 :: '-' :: s2 :: (w2 ++ '=' :: v)) =
      some (w1 ++ s1 :: '-' :: s2 :: (w2 ++ ['=']), w1 ++ '-' :: (w2 ++ ['=']), v) := by
  have hhead : ∀ d ds, s1 :: '-' :: s2 :: (w2 ++ '=' :: v) = d :: ds → isAlnum d = false := by
    intro d ds hd
    injection hd with h1 _
    rw [← h1]
    exact not_alnum_of_space hs1
  have hsp1 := takeWhile_split isAlnum w1 (s1 :: '-' :: s2 :: (w2 ++ '=' :: v)) hw1p hhead
  have hhead2 : ∀ d ds, '=' :: v = d :: ds → isAlnum d = false := by
    intro d ds hd
    injection hd with h1 _
    rw [← h1]
    decide
  have hsp2 := takeWhile_split isAlnum w2 ('=' :: v) hw2p hhead2
  cases w1 with
  | nil => exact absurd rfl hw1
  | cons a as =>
    have hb : boundary prev a = true := by
      have : isWord a = true := word_of_alnum (hw1p a (List.mem_cons_self a as))
      simp [boundary, hprev, this]
    rw [List.cons_append] at hsp1 ⊢
    simp [mAttr, hb, hsp1.1, hsp1.2, hsp2.1, hsp2.2, hs1, hs2, hw2]

theorem fixAttrHyphen_rewrites (w1 w2 v : List Char) (s1 s2 : Char)
    (hw1 : w1 ≠ []) (hw1p : ∀ c ∈ w1, isAlnum c = true)
    (hs1 : isSpace s1 = true) (hs2 : isSpace s2 = true)
    (hw2 : w2 ≠ []) (hw2p : ∀ c ∈ w2, isAlnum c = true) :
    fixAttrHyphen (w1 ++ s1 :: '-' :: s2 :: (w2 ++ '=' :: v)) =
      w1 ++ '-' :: (w2 ++ '=' :: fixAttrHyphen v) := by
  have hm := @mAttr_eval none w1 w2 v s1 s2 rfl hw1 hw1p hs1 hs2 hw2 hw2p
  have hstep := scanFrom_match mAttr_good hm
  have hassoc : w1 ++ s1 :: '-' :: s2 :: (w2 ++ ['=']) =
      (w1 ++ s1 :: '-' :: s2 :: w2) ++ ['='] := by simp
  rw [hassoc, getLast?_append_singleton] at hstep
  rw [@scanFrom_prevCongr mAttr mAttr_wordDep (some '=') none (by decide) v] at hstep
  simp only [fixAttrHyphen, scan]
  rw [hstep]
  simp

theorem mProp_eval {prev : Option Char} (c : Char) (p' g : List Char) (s1 s2 : Char)
    (hprev : isWordOpt prev = false) (hw : isWord c = true)
    (hs1 : isSpace s1 = true) (hs2 : isSpace s2 = true)
    (hg : g ≠ []) (hgp : ∀ d ∈ g, isPropChar d = true) :
    mProp (c :: p') prev ((c :: p') ++ s1 :: '-' :: s2 :: g) =
      some ((c :: p') ++ s1 :: '-' :: s2 :: g, (c :: p') ++ '-' :: g, []) := by
  have hb : boundary prev c = true := by simp [boundary, hprev, hw]
  have hlead : leadsWith (c :: p') ((c :: p') ++ s1 :: '-' :: s2 :: g) = true :=
    leadsWith_append _ _
  have hdrop : ((c :: p') ++ s1 :: '-' :: s2 :: g).drop (c :: p').length =
      s1 :: '-' :: s2 :: g := List.drop_left _ _
  have hall := takeWhile_all isPropChar g hgp
  rw [List.cons_append] at hlead hdrop ⊢
  simp [mProp, hb, hlead, hdrop, hs1, hs2, hall.1, hall.2, hg]

theorem propPass_whole (c : Char) (p' g : List Char) (s1 s2 : Char)
    (hw : isWord c = true) (hs1 : isSpace s1 = true) (hs2 : isSpace s2 = true)
    (hg : g ≠ []) (hgp : ∀ d ∈ g, isPropChar d = true) :
    propPass (c :: p') ((c :: p') ++ s1 :: '-' :: s2 :: g) = (c :: p') ++ '-' :: g := by
  have hm := @mProp_eval none c p' g s1 s2 rfl hw hs1 hs2 hg hgp
  have hstep := scanFrom_match (mProp_good (c :: p')) hm
  simp only [propPass, scan]
  rw [hstep]
  simp [scanFrom_nil]

theorem scanFrom_mRep_id (pat rep : List Char) :
    ∀ (l : List Char) (prev : Option Char), occursIn pat l = false →
      scanFrom (mRep pat rep) prev l = l := by
  intro l
  induction l with
  | nil => intro prev _; rfl
  | cons c cs ih =>
    intro prev h
    rw [occursIn, Bool.or_eq_false_iff] at h
    have hm : mRep pat rep prev (c :: cs) = none := by
      simp [mRep, h.1]
    rw [scanFrom_cons_none hm, ih (some c) h.2]

/-- Claim C1, counterexample: the pipeline is not idempotent.  On the input
`a - b = "` the first run's equals-spacing pass produces `a - b="`, which on a
second run the (earlier) hyphenated-attribute pass rewrites further to
`a-b="`, so running the pipeline twice differs from running it once. -/
theorem pipeline_not_idempotent :
    pipeline (pipeline "a - b = \"".toList) ≠ pipeline "a - b = \"".toList := by
  decide

/-- Claim C1, amended: idempotence holds on inputs the pipeline leaves
unchanged (already-corrected text): if `pipeline l = l`, a second application
changes nothing.  Unrestricted idempotence fails, because the equals-spacing
pass can create a new hyphenated-attribute occurrence that only a second run
of the earlier pass would repair. -/
theorem pipeline_idempotent_on_unchanged (l : List Char) (h : pipeline l = l) :
    pipeline (pipeline l) = pipeline l := by
  rw [h, h]

/-- Witness for the amended C1 at the concrete fixed point `hello`. -/
theorem pipeline_idempotent_on_unchanged_witness :
    pipeline "hello".toList = "hello".toList ∧
      pipeline (pipeline "hello".toList) = pipeline "hello".toList :=
  ⟨by decide, pipeline_idempotent_on_unchanged "hello".toList (by decide)⟩

/-- Claim C2: the file is rewritten if and only if the pipeline changed the
content — `written` is `none` exactly when `pipeline l = l` (no write occurs,
and the "No changes needed" line is printed), and otherwise the file receives
`pipeline l` and the "Fixed corruption in menu.ts" line is printed. -/
theorem write_and_message_iff_changed (l : List Char) :
    (runScript l).written = (if pipeline l = l then none else some (pipeline l)) ∧
    (runScript l).message = (if pipeline l = l then noChangesMessage else fixedMessage) := by
  by_cases h : pipeline l = l <;> simp [runScript, h]

/-- Claim C3: the full pipeline maps
`<div class="mp - room - details"> text </ div>` to
`<div class="mp-room-details"> text </div>` (tag passes fix the tags; the
`room - details` and `mp - room` exact-string entries fix the class value). -/
theorem pipeline_full_scenario :
    pipeline "<div class=\"mp - room - details\"> text </ div>".toList =
      "<div class=\"mp-room-details\"> text </div>".toList := by
  decide

/-- Claim C4: the hyphenated-attribute pass collapses every occurrence of an
alphanumeric word, a whitespace character, a hyphen, a whitespace character
and another alphanumeric word followed immediately by an equals sign into the
two words joined by a single hyphen before the equals sign; the scan then
continues on the remaining suffix (so later occurrences are handled by the
recursive `fixAttrHyphen v`). -/
theorem hyphenated_attribute_pass_spec (w1 w2 v : List Char) (s1 s2 : Char)
    (hw1 : w1 ≠ []) (hw1p : ∀ c ∈ w1, isAlnum c = true)
    (hs1 : isSpace s1 = true) (hs2 : isSpace s2 = true)
    (hw2 : w2 ≠ []) (hw2p : ∀ c ∈ w2, isAlnum c = true) :
    fixAttrHyphen (w1 ++ s1 :: '-' :: s2 :: (w2 ++ '=' :: v)) =
      w1 ++ '-' :: (w2 ++ '=' :: fixAttrHyphen v) :=
  fixAttrHyphen_rewrites w1 w2 v s1 s2 hw1 hw1p hs1 hs2 hw2 hw2p

/-- Witness for C4 at the spec's example `data - order=`. -/
theorem hyphenated_attribute_pass_spec_witness :
    fixAttrHyphen "data - order=".toList = "data-order=".toList := by
  have h := hyphenated_attribute_pass_spec "data".toList "order".toList [] ' ' ' '
    (by decide) (by decide) (by decide) (by decide) (by decide) (by decide)
  have e1 : "data - order=".toList =
      "data".toList ++ ' ' :: '-' :: ' ' :: ("order".toList ++ '=' :: []) := by decide
  have e2 : "data-order=".toList =
      "data".toList ++ '-' :: ("order".toList ++ '=' :: fixAttrHyphen []) := by decide
  rw [e1, e2]
  exact h

/-- Claim C5: for each name in the fixed list `known_css_props`, the
known-property substitution joins the prefix and the trailing letters/hyphens
word with a single hyphen, removing the whitespace; on the full pass,
`box - shadow: 2px` becomes `box-shadow: 2px` while the non-listed prefix in
`Free - For:` is left unchanged. -/
theorem known_property_pass_spec :
    (∀ p ∈ known_css_props, ∀ (g : List Char) (s1 s2 : Char),
        isSpace s1 = true → isSpace s2 = true → g ≠ [] → (∀ d ∈ g, isPropChar d = true) →
        propPass p (p ++ s1 :: '-' :: s2 :: g) = p ++ '-' :: g)
    ∧ fixProps "box - shadow: 2px".toList = "box-shadow: 2px".toList
    ∧ fixProps "Free - For:".toList = "Free - For:".toList := by
  refine ⟨?_, by decide, by decide⟩
  intro p hp g s1 s2 hs1 hs2 hg hgp
  fin_cases hp <;> exact propPass_whole _ _ g s1 s2 (by decide) hs1 hs2 hg hgp

/-- Witness for C5 at the property `box` with trailing word `shadow`. -/
theorem known_property_pass_spec_witness :
    propPass "box".toList ("box".toList ++ ' ' :: '-' :: ' ' :: "shadow".toList) =
      "box".toList ++ '-' :: "shadow".toList :=
  known_property_pass_spec.1 "box".toList (by decide) "shadow".toList ' ' ' '
    (by decide) (by decide) (by decide) (by decide)

/-- Claim C6: the closing-tag pass removes the whitespace in every occurrence
of `</`, one or more whitespace characters, an alphanumeric tag name and `>`
(the scan continuing on the remaining suffix), and in the pipeline this pass
is applied before the opening-tag pass (it is the innermost pass, with
`fixOpening` applied to its output). -/
theorem closing_tag_pass_spec :
    (∀ ws tag v, ws ≠ [] → (∀ c ∈ ws, isSpace c = true) → tag ≠ [] →
        (∀ c ∈ tag, isAlnum c = true) →
        fixClosing ('<' :: '/' :: (ws ++ tag ++ '>' :: v)) =
          '<' :: '/' :: (tag ++ '>' :: fixClosing v))
    ∧ ∀ l, pipeline l =
        fixProse (fixSelectors (selectorLoop (fixProps (fixEqSpace (fixAttrHyphen
          (fixOpening (fixClosing l))))))) :=
  ⟨fixClosing_rewrites, fun _ => rfl⟩

/-- Witness for C6 at the spec's examples `</ div>` and `</   span>`. -/
theorem closing_tag_pass_spec_witness :
    fixClosing "</ div>".toList = "</div>".toList ∧
    fixClosing "</   span>".toList = "</span>".toList := by
  constructor
  · have h := closing_tag_pass_spec.1 [' '] "div".toList []
      (by decide) (by decide) (by decide) (by decide)
    have e1 : "</ div>".toList = '<' :: '/' :: ([' '] ++ "div".toList ++ '>' :: []) := by
      decide
    have e2 : "</div>".toList = '<' :: '/' :: ("div".toList ++ '>' :: fixClosing []) := by
      decide
    rw [e1, e2]
    exact h
  · have h := closing_tag_pass_spec.1 [' ', ' ', ' '] "span".toList []
      (by decide) (by decide) (by decide) (by decide)
    have e1 : "</   span>".toList =
        '<' :: '/' :: ([' ', ' ', ' '] ++ "span".toList ++ '>' :: []) := by decide
    have e2 : "</span>".toList = '<' :: '/' :: ("span".toList ++ '>' :: fixClosing []) := by
      decide
    rw [e1, e2]
    exact h

/-- Claim C7: the run aborts with the disk untouched and nothing printed when
the read fails, and on a successful read the disk afterwards holds either the
original content or the complete pipeline output — never a partial
transformation (the write is modelled as happening only after the whole
in-memory transformation). -/
theorem read_failure_and_atomicity (d : Option (List Char)) :
    (d = none → runOnDisk d = (none, none)) ∧
    (∀ x, d = some x → (runOnDisk d).1 = some x ∨ (runOnDisk d).1 = some (pipeline x)) := by
  constructor
  · intro h
    subst h
    rfl
  · intro x h
    subst h
    by_cases hc : pipeline x = x
    · left
      simp [runOnDisk, runScript, hc]
    · right
      simp [runOnDisk, runScript, hc]

/-- Witness for C7: a failed read leaves the disk state unchanged, and a
successful read of `a - b = "` leaves the disk holding the original or the
pipeline output. -/
theorem read_failure_and_atomicity_witness :
    runOnDisk none = (none, none) ∧
    ((runOnDisk (some "a - b = \"".toList)).1 = some "a - b = \"".toList ∨
      (runOnDisk (some "a - b = \"".toList)).1 = some (pipeline "a - b = \"".toList)) :=
  ⟨(read_failure_and_atomicity none).1 rfl,
   (read_failure_and_atomicity (some "a - b = \"".toList)).2 _ rfl⟩

theorem selectorLoop_id (l : List Char) : selectorLoop l = l := rfl

/-- Claim C9: the loop over the selector `prefixes` list has an empty body
(`pass`), so the pipeline with that loop removed computes the same output on
every input. -/
theorem pipeline_eq_pipelineNoLoop : ∀ l, pipeline l = pipelineNoLoop l := by
  intro l
  simp only [pipeline, pipelineNoLoop, selectorLoop_id]

/-- Claim C10: the transformation and the run outcome (rewrite decision and
status message) are a pure function of the initial content — equal initial
contents give identical results; the model takes no other input. -/
theorem run_deterministic (x y : List Char) (h : x = y) :
    pipeline x = pipeline y ∧ runScript x = runScript y := by
  subst h
  exact ⟨rfl, rfl⟩

/-- Witness for C10 at the concrete content `abc`. -/
theorem run_deterministic_witness :
    pipeline "abc".toList = pipeline "abc".toList ∧
      runScript "abc".toList = runScript "abc".toList :=
  run_deterministic "abc".toList "abc".toList rfl

/-- Claim C8: the prose-phrase pass replaces every occurrence of the three
listed literals (`Co - op` to `Co-op`, `Free -for-All` to `Free-for-All`,
`Free - for - All` to `Free-for-All`) and modifies nothing else: a document
containing none of the three literals passes through unchanged. -/
theorem prose_phrase_pass_spec :
    (∀ l, occursIn "Free -for-All".toList l = false →
        occursIn "Co - op".toList l = false →
        occursIn "Free - for - All".toList l = false → fixProse l = l)
    ∧ fixProse "Co - op".toList = "Co-op".toList
    ∧ fixProse "Free -for-All".toList = "Free-for-All".toList
    ∧ fixProse "Free - for - All".toList = "Free-for-All".toList
    ∧ fixProse "Co - op and Co - op".toList = "Co-op and Co-op".toList := by
  refine ⟨?_, by decide, by decide, by decide, by decide⟩
  intro l h1 h2 h3
  show scanFrom (mRep "Free - for - All".toList "Free-for-All".toList) none
      (scanFrom (mRep "Co - op".toList "Co-op".toList) none
        (scanFrom (mRep "Free -for-All".toList "Free-for-All".toList) none l)) = l
  rw [scanFrom_mRep_id _ _ l none h1, scanFrom_mRep_id _ _ l none h2,
    scanFrom_mRep_id _ _ l none h3]

/-- Witness for C8 at a document containing none of the three literals. -/
theorem prose_phrase_pass_spec_witness :
    fixProse "hello world".toList = "hello world".toList :=
  prose_phrase_pass_spec.1 "hello world".toList (by decide) (by decide) (by decide)

end FixMenu
